import Mathlib

/-!
Verification of the Blackjack chat-plugin core: a shallow embedding of the
card/rank value table (src/card/rankValues.ts), the hand evaluator and seat
logic (src/player/player.ts), the game-engine state machine
(src/game/blackjack-game.ts, current version), and the per-chat session
manager with its dealer-balance statistic (src/unnamed/part_006, current
version), together with theorems checking the specification's claims.

TypeScript mutation is modelled by explicit state passing: every method on a
mutable object becomes a function from the old state (and arguments) to the
new state (and return value). JavaScript numbers on the paths modelled here
are integers except the payout multipliers (1, 2, 2.5, 0.5), which are exact
dyadic rationals, so `Math.floor(bet * multiplier)` is embedded as the
rational floor.
-/

namespace Blackjack

/-- Suit of a playing card (src/card: card.ts / suit). -/
inductive Suit where
  | Hearts
  | Diamonds
  | Clubs
  | Spades
deriving DecidableEq, Repr

/-- Rank of a playing card (src/card: card.ts / rank). -/
inductive Rank where
  | Ace
  | King
  | Queen
  | Jack
  | Ten
  | Nine
  | Eight
  | Seven
  | Six
  | Five
  | Four
  | Three
  | Two
deriving DecidableEq, Repr

/-- A playing card (src/unnamed/part_005, class Card). -/
structure Card where
  suit : Suit
  rank : Rank
deriving DecidableEq, Repr

/-- src/card/rankValues.ts: FACE_CARD_VALUE. -/
def FACE_CARD_VALUE : ℕ := 10

/-- src/card/rankValues.ts: RANK_VALUES, the possible numeric values of each
rank. The TypeScript map is total over `Rank`, so the `?? []` fallback in
`calculatePossibleHandValues` never fires and is not modelled. -/
def RANK_VALUES : Rank → List ℕ
  | .Ace => [1, 11]
  | .King => [FACE_CARD_VALUE]
  | .Queen => [FACE_CARD_VALUE]
  | .Jack => [FACE_CARD_VALUE]
  | .Ten => [FACE_CARD_VALUE]
  | .Nine => [9]
  | .Eight => [8]
  | .Seven => [7]
  | .Six => [6]
  | .Five => [5]
  | .Four => [4]
  | .Three => [3]
  | .Two => [2]

/-- src/player/hand-state.ts: HandState. -/
inductive HandState where
  | Blackjack
  | Busted
  | Surrendered
  | Normal
deriving DecidableEq, Repr

/-- src/game/game-state.ts: GameState. -/
inductive GameState where
  | INITIALIZING
  | AWAITING_PLAYERS
  | DEALING_CARDS
  | PLAYER_TURNS
  | DEALER_TURN
  | ENDED
deriving DecidableEq, Repr

/-- Player.MAX_HAND_VALUE (src/player/player.ts). -/
def MAX_HAND_VALUE : ℕ := 21

/-- Player.DEALER_MIN_GOAL (src/player/player.ts). -/
def DEALER_MIN_GOAL : ℕ := 17

/-- Helper for `removeDuplicates`: keep each number whose value has not been
seen before. -/
def removeDuplicatesGo (seen : List ℕ) : List ℕ → List ℕ
  | [] => []
  | n :: rest =>
    if n ∈ seen then removeDuplicatesGo seen rest
    else n :: removeDuplicatesGo (n :: seen) rest

/-- Player.removeDuplicates (src/player/player.ts, lines 208-210): keeps the
first occurrence of each number, exactly like
`numbers.filter((elem, index, self) => index === self.indexOf(elem))`
(an element is kept iff its index is the index of its first occurrence). -/
def removeDuplicates (l : List ℕ) : List ℕ :=
  removeDuplicatesGo [] l

/-- The inner loop of Player.calculatePossibleHandValues: for one card's
value list, build the concatenation over each value `v` of
`sums.map (· + v)`. -/
def addCardValues (sums : List ℕ) (values : List ℕ) : List ℕ :=
  values.foldl (fun newSums v => newSums ++ sums.map (fun s => s + v)) []

/-- The outer loop of Player.calculatePossibleHandValues, before
deduplication: starting from `[0]`, fold each card's rank values in. -/
def possibleHandSums (cards : List Card) : List ℕ :=
  cards.foldl (fun sums card => addCardValues sums (RANK_VALUES card.rank)) [0]

/-- Player.calculatePossibleHandValues (src/player/player.ts, lines 163-180):
all achievable hand sums of the given cards, deduplicated. -/
def calculatePossibleHandValues (cards : List Card) : List ℕ :=
  removeDuplicates (possibleHandSums cards)

/-- The descending sort used by Player.recalculateNonBustedHandValues:
`sort((a, b) => b - a)`. -/
def sortHighToLow (l : List ℕ) : List ℕ :=
  l.insertionSort (fun a b => b ≤ a)

/-- Head of a list or -1 (Player.highestNonBustedHandValue's logic). -/
def headOrNegOne (l : List ℕ) : ℤ :=
  match l with
  | v :: _ => (v : ℤ)
  | [] => -1

/-- A player partaking in a game of Blackjack (src/player/player.ts).

The optional `updateScoreFunction` closure is modelled by the boolean
`hasUpdateScoreFunction` plus an explicit list of emitted score events (see
`Player.rewardPlayer`). The current game engine additionally relies on a
`Player.isFirstTurn` accessor, a `Player.doubleDown()` method and a public
`bet`, which are not present in src/player/player.ts; the fields and
operations standing in for them are marked as modelled from the spec. -/
structure Player where
  identifier : ℤ
  name : String
  bet : ℤ
  hasUpdateScoreFunction : Bool
  mycards : List Card
  myHandState : HandState
  myNonBustedHandValues : List ℕ
  myHasReachedDealerMinimum : Bool
  myIsFirstTurn : Bool
deriving DecidableEq, Repr

/-- The Player constructor: field initializers of src/player/player.ts.
(The constructor's bet validation throws only for non-dealer bets below 1 or
non-integral; the session manager validates the bet before construction, so
the throw is unreachable in the modelled flows.) `myIsFirstTurn` is modelled
from the spec: a seat's first action of the round has not yet been taken. -/
def mkPlayer (identifier : ℤ) (name : String) (bet : ℤ)
    (hasUpdateScoreFunction : Bool) : Player :=
  { identifier := identifier
    name := name
    bet := bet
    hasUpdateScoreFunction := hasUpdateScoreFunction
    mycards := []
    myHandState := HandState.Normal
    myNonBustedHandValues := []
    myHasReachedDealerMinimum := false
    myIsFirstTurn := true }

/-- Player.isDealer: the dealer identifier is -1. -/
def Player.isDealer (p : Player) : Bool :=
  p.identifier = -1

/-- Player.mayDrawCard. -/
def Player.mayDrawCard (p : Player) : Bool :=
  p.myHandState = HandState.Normal

/-- Player.highestNonBustedHandValue (src/player/player.ts, lines 90-95). -/
def Player.highestNonBustedHandValue (p : Player) : ℤ :=
  headOrNegOne p.myNonBustedHandValues

/-- Player.recalculateIsBusted (src/player/player.ts, lines 189-195): the
hand state becomes Busted when `findIndex(value ≤ 21)` is -1, i.e. no
achievable value is at most 21; otherwise it is left as it was. -/
def recalculateIsBusted (current : HandState) (handValues : List ℕ) : HandState :=
  if (handValues.find? (fun v => v ≤ MAX_HAND_VALUE)).isNone then HandState.Busted
  else current

/-- Player.recalculateHasBlackjack (src/player/player.ts, lines 182-187):
with exactly 2 cards, a highest non-busted value of 21, and cards[0] or
cards[1] an Ace, the hand state becomes Blackjack; otherwise it is left as
it was. -/
def recalculateHasBlackjack (current : HandState) (cards : List Card)
    (nonBusted : List ℕ) : HandState :=
  match cards with
  | [c0, c1] =>
    if headOrNegOne nonBusted = (MAX_HAND_VALUE : ℤ) ∧
        (c0.rank = Rank.Ace ∨ c1.rank = Rank.Ace) then
      HandState.Blackjack
    else current
  | _ => current

/-- Player.recalculateHasReachedDealerMinimum (src/player/player.ts, lines
202-206): some achievable value lies in [17, 21]. -/
def recalculateHasReachedDealerMinimum (handValues : List ℕ) : Bool :=
  (handValues.find? (fun v => DEALER_MIN_GOAL ≤ v && v ≤ MAX_HAND_VALUE)).isSome

/-- Player.giveCards (src/player/player.ts, lines 56-63): append the cards,
then recalculate, in order, the busted state, the non-busted hand values
(recalculateNonBustedHandValues, lines 197-200: filter to ≤ 21 and sort
descending), the dealer-minimum flag and the blackjack state, each from the
full hand. -/
def Player.giveCards (p : Player) (cards : List Card) : Player :=
  let newCards := p.mycards ++ cards
  let handValues := calculatePossibleHandValues newCards
  let nonBusted := sortHighToLow (handValues.filter (fun v => v ≤ MAX_HAND_VALUE))
  { p with
    mycards := newCards
    myHandState :=
      recalculateHasBlackjack (recalculateIsBusted p.myHandState handValues)
        newCards nonBusted
    myNonBustedHandValues := nonBusted
    myHasReachedDealerMinimum := recalculateHasReachedDealerMinimum handValues }

/-- Player.setSurrendered. -/
def Player.setSurrendered (p : Player) : Player :=
  { p with myHandState := HandState.Surrendered }

/-- Modelled from the spec: the seat takes its first action of the round
(the spec makes `surrender`/`double down` "legal only if this is the seat's
first action this round"; the accessor backing this is absent from
src/player/player.ts). Invoked by the engine's `hit`. -/
def Player.markActed (p : Player) : Player :=
  { p with myIsFirstTurn := false }

/-- Modelled from the spec: `double down` "doubles the bet"
(Player.doubleDown is absent from src/player/player.ts). -/
def Player.doubleDownBet (p : Player) : Player :=
  { p with bet := 2 * p.bet }

/-- A score mutation sent to the external ledger through the player's
updateScoreFunction closure. -/
structure ScoreEvent where
  points : ℤ
  reason : String
deriving DecidableEq, Repr

/-- Player.rewardPlayer (src/player/player.ts, lines 152-161): for a
non-dealer player with an updateScoreFunction, compute
`Math.floor(bet * multiplier)`, credit it to the ledger and return it;
otherwise return 0 and credit nothing. -/
def Player.rewardPlayer (p : Player) (multiplier : ℚ) : ℤ × List ScoreEvent :=
  if p.isDealer = false ∧ p.hasUpdateScoreFunction = true then
    let reward : ℤ := ⌊(p.bet : ℚ) * multiplier⌋
    let reason :=
      if p.myHandState = HandState.Surrendered then "surrendered.reward"
      else "winner.reward"
    (reward, [⟨reward, reason⟩])
  else (0, [])

/-- src/unnamed/part_001 (game-conclusion.ts): GameConclusion. -/
structure GameConclusion where
  dealerBusted : Bool
  bustedPlayers : List Player
  lowerScoreThanDealerPlayers : List Player
  sameScoreAsDealerPlayers : List Player
  higherScoreThanDealerPlayers : List Player
  playersWithBlackjack : List Player
  surrenderedPlayers : List Player
deriving DecidableEq, Repr

/-- src/game/hit-result.ts: HitResult. -/
structure HitResult where
  card : Card
  currentPlayer : Player
  nextPlayer : Player
deriving DecidableEq, Repr

/-- An on-going game of Blackjack (src/game/blackjack-game.ts, current
version, lines 14-289). Timer bookkeeping (`playerTurnTimeoutId`,
setTimeout/clearTimeout) is a side effect on the wall clock and is not part
of the modelled state; the deck, which in the source is created during
`dealCards`, is a list drawn from the end (Deck.drawCard splices off the
last element). -/
structure BlackjackGame where
  dealer : Player
  myPlayers : List Player
  gameState : GameState
  playerTurnIndex : ℤ
  deck : List Card
deriving DecidableEq, Repr

/-- The game's field initializers: a fresh dealer (the no-argument Player
constructor), no players, state INITIALIZING, turn index -1, no deck yet. -/
def newBlackjackGame : BlackjackGame :=
  { dealer := mkPlayer (-1) "The dealer" 0 false
    myPlayers := []
    gameState := GameState.INITIALIZING
    playerTurnIndex := -1
    deck := [] }

/-- BlackjackGame.isJoinable (current version, lines 51-53). Note: unlike
the older version (lines 345-348), it does not compare the player count
against MAX_PLAYERS. -/
def BlackjackGame.isJoinable (g : BlackjackGame) : Bool :=
  g.gameState = GameState.INITIALIZING ∨ g.gameState = GameState.AWAITING_PLAYERS

/-- BlackjackGame.joinGame (current version, lines 76-82): if not joinable,
return an error string; otherwise push the player. -/
def BlackjackGame.joinGame (g : BlackjackGame) (player : Player) :
    BlackjackGame × Option String :=
  if g.isJoinable = false then
    (g, some "It's no longer possible to join the game!")
  else ({ g with myPlayers := g.myPlayers ++ [player] }, none)

/-- BlackjackGame.initializeGame (current version, lines 61-68): move from
INITIALIZING to AWAITING_PLAYERS and report the join-window length in
seconds, or an error string if already initialized. -/
def BlackjackGame.initializeGame (g : BlackjackGame) : BlackjackGame × (ℕ ⊕ String) :=
  if g.gameState ≠ GameState.INITIALIZING then
    (g, Sum.inr "Game has already been initialized - this is a programming error!")
  else ({ g with gameState := GameState.AWAITING_PLAYERS }, Sum.inl 15)

/-- BlackjackGame.currentPlayer (lines 276-281): the dealer once the turn
index has passed the end of the player list, otherwise the player at the
turn index. (A negative index never occurs when this is read in the source;
the `getD` default is arbitrary there.) -/
def BlackjackGame.currentPlayer (g : BlackjackGame) : Player :=
  if (g.myPlayers.length : ℤ) ≤ g.playerTurnIndex then g.dealer
  else g.myPlayers.getD g.playerTurnIndex.toNat g.dealer

/-- In-place mutation of the object aliased by `currentPlayer`: rewrite the
seat (or the dealer) the current turn index designates. -/
def BlackjackGame.updateCurrentPlayer (g : BlackjackGame) (f : Player → Player) :
    BlackjackGame :=
  if (g.myPlayers.length : ℤ) ≤ g.playerTurnIndex then { g with dealer := f g.dealer }
  else { g with myPlayers := g.myPlayers.set g.playerTurnIndex.toNat (f (g.currentPlayer)) }

/-- The seat-scan inside startNextPlayerTurn: starting at index `j` with the
remaining seats `players`, return the index and seat of the first seat that
may draw a card, or the dealer at the index just past the scanned seats.
This is the source's recursive turn-skipping (lines 192-204) with the index
bookkeeping made explicit; it visits seats in the same order. -/
def scanForTurn (dealer : Player) : List Player → ℕ → ℕ × Player
  | [], j => (j, dealer)
  | p :: rest, j =>
    if p.mayDrawCard then (j, p) else scanForTurn dealer rest (j + 1)

/-- BlackjackGame.startNextPlayerTurn (lines 192-204): increment the turn
index, recursively skipping seats that may not draw; return the updated game
and the seat now holding the turn (possibly the dealer). Only the turn index
changes. (On a game whose turn index is below -1 the source would fault
reading a property of `undefined`; such states are unreachable and the model
returns the dealer there.) -/
def BlackjackGame.startNextPlayerTurn (g : BlackjackGame) : BlackjackGame × Player :=
  let i := g.playerTurnIndex + 1
  if i < 0 then ({ g with playerTurnIndex := i }, g.dealer)
  else
    let scan := scanForTurn g.dealer (g.myPlayers.drop i.toNat) i.toNat
    ({ g with playerTurnIndex := (scan.fst : ℤ) }, scan.snd)

/-- Deck.drawCard (src/deck, class Deck): remove and return the last card,
or fail on an empty deck (the source throws there). -/
def drawCard (deck : List Card) : Option (Card × List Card) :=
  match deck.getLast? with
  | none => none
  | some c => some (c, deck.dropLast)

/-- BlackjackGame.stand (current version, lines 89-95): reject when the game
is not in PLAYER_TURNS or the identifier does not match the current seat;
otherwise advance the turn and return the next seat. -/
def BlackjackGame.stand (g : BlackjackGame) (identifier : ℤ) :
    BlackjackGame × Option Player :=
  if g.gameState ≠ GameState.PLAYER_TURNS then (g, none)
  else if g.currentPlayer.identifier ≠ identifier then (g, none)
  else
    let r := g.startNextPlayerTurn
    (r.fst, some r.snd)

/-- BlackjackGame.surrender (current version, lines 103-115): reject
silently on wrong state or wrong seat; on the seat's first turn set it
Surrendered and advance; otherwise reject with an error string and change
nothing. -/
def BlackjackGame.surrender (g : BlackjackGame) (identifier : ℤ) :
    BlackjackGame × Option (Player ⊕ String) :=
  if g.gameState ≠ GameState.PLAYER_TURNS then (g, none)
  else if g.currentPlayer.identifier ≠ identifier then (g, none)
  else if g.currentPlayer.myIsFirstTurn then
    let g₁ := g.updateCurrentPlayer Player.setSurrendered
    let r := g₁.startNextPlayerTurn
    (r.fst, some (Sum.inl r.snd))
  else (g, some (Sum.inr "Surrendering is no longer allowed!"))

/-- BlackjackGame.hit (current version, lines 122-141): reject on wrong
state or wrong seat; otherwise draw a card, give it to the current seat
(which also ends the seat's first turn), and either advance (if the seat
busted) or keep the turn with the same seat. A draw from an empty deck
throws in the source (unreachable with a properly sized shoe) and is
modelled as a rejection. -/
def BlackjackGame.hit (g : BlackjackGame) (identifier : ℤ) :
    BlackjackGame × Option HitResult :=
  if g.gameState ≠ GameState.PLAYER_TURNS then (g, none)
  else if g.currentPlayer.identifier ≠ identifier then (g, none)
  else
    match drawCard g.deck with
    | none => (g, none)
    | some (card, rest) =>
      let g₁ :=
        { g.updateCurrentPlayer (fun p => (p.giveCards [card]).markActed) with
          deck := rest }
      let cp := g₁.currentPlayer
      if cp.myHandState = HandState.Busted then
        let r := g₁.startNextPlayerTurn
        (r.fst, some ⟨card, cp, r.snd⟩)
      else (g₁, some ⟨card, cp, cp⟩)

/-- The external user object handed to doubleDown (id and ledger score). -/
structure User where
  id : ℤ
  name : String
  score : ℤ
deriving DecidableEq, Repr

/-- BlackjackGame.doubleDown (current version, lines 149-168): reject
silently on wrong state or wrong user; reject with an error string after the
seat's first turn or when the user's balance is below the seat's bet;
otherwise double the bet, draw exactly one card, and unconditionally advance
the turn. An empty-deck draw throws in the source and is modelled as a
rejection. -/
def BlackjackGame.doubleDown (g : BlackjackGame) (user : User) :
    BlackjackGame × Option (HitResult ⊕ String) :=
  if g.gameState ≠ GameState.PLAYER_TURNS then (g, none)
  else if g.currentPlayer.identifier ≠ user.id then (g, none)
  else if g.currentPlayer.myIsFirstTurn = false then
    (g, some (Sum.inr "Doubling down is no longer allowed!"))
  else if user.score < g.currentPlayer.bet then
    (g, some (Sum.inr "You don't have enough points to double down!"))
  else
    match drawCard g.deck with
    | none => (g, none)
    | some (card, rest) =>
      let g₁ :=
        { g.updateCurrentPlayer (fun p => p.doubleDownBet.giveCards [card]) with
          deck := rest }
      let cp := g₁.currentPlayer
      let r := g₁.startNextPlayerTurn
      (r.fst, some (Sum.inl ⟨card, cp, r.snd⟩))

/-- BlackjackGame.getBustedPlayers (lines 249-251). -/
def getBustedPlayers (players : List Player) : List Player :=
  players.filter (fun p => p.myHandState = HandState.Busted)

/-- BlackjackGame.getPlayersWithLowerScoreThanDealer (lines 253-256). -/
def getPlayersWithLowerScoreThanDealer (dealer : Player) (players : List Player) :
    List Player :=
  players.filter (fun p =>
    p.myHandState = HandState.Normal ∧
      p.highestNonBustedHandValue < dealer.highestNonBustedHandValue)

/-- BlackjackGame.getPlayersWithSameScoreAsDealer (lines 258-261). -/
def getPlayersWithSameScoreAsDealer (dealer : Player) (players : List Player) :
    List Player :=
  players.filter (fun p =>
    p.myHandState = HandState.Normal ∧
      p.highestNonBustedHandValue = dealer.highestNonBustedHandValue)

/-- BlackjackGame.getPlayersWithHigherScoreThanDealer (lines 263-266). -/
def getPlayersWithHigherScoreThanDealer (dealer : Player) (players : List Player) :
    List Player :=
  players.filter (fun p =>
    p.myHandState = HandState.Normal ∧
      dealer.highestNonBustedHandValue < p.highestNonBustedHandValue)

/-- BlackjackGame.getPlayersWithBlackjack (lines 268-270). -/
def getPlayersWithBlackjack (players : List Player) : List Player :=
  players.filter (fun p => p.myHandState = HandState.Blackjack)

/-- BlackjackGame.getSurrenderedPlayers (lines 272-274). -/
def getSurrenderedPlayers (players : List Player) : List Player :=
  players.filter (fun p => p.myHandState = HandState.Surrendered)

/-- BlackjackGame.getGameConclusion (lines 227-243), as a function of the
dealer and player list it reads. -/
def getGameConclusion (dealer : Player) (players : List Player) : GameConclusion :=
  { dealerBusted := dealer.myHandState = HandState.Busted
    bustedPlayers := getBustedPlayers players
    lowerScoreThanDealerPlayers := getPlayersWithLowerScoreThanDealer dealer players
    sameScoreAsDealerPlayers := getPlayersWithSameScoreAsDealer dealer players
    higherScoreThanDealerPlayers := getPlayersWithHigherScoreThanDealer dealer players
    playersWithBlackjack := getPlayersWithBlackjack players
    surrenderedPlayers := getSurrenderedPlayers players }

/-- One player drawing one card from the top of the deck
(`player.giveCards(this.deck.drawCard())`). If the deck is empty the source
throws; the model leaves the player untouched (unreachable with a full
shoe). -/
def giveDrawn (p : Player) (deck : List Card) : Player × List Card :=
  match drawCard deck with
  | none => (p, deck)
  | some (c, deck') => (p.giveCards [c], deck')

/-- `myPlayers.forEach((player) => player.giveCards(this.deck.drawCard()))`:
deal one card to each seat in order, threading the deck. -/
def dealOneToEach : List Player → List Card → List Player × List Card
  | [], deck => ([], deck)
  | p :: rest, deck =>
    let (p', deck') := giveDrawn p deck
    let (rest', deck'') := dealOneToEach rest deck'
    (p' :: rest', deck'')

/-- BlackjackGame.dealCards (lines 170-180), fired by the join-window timer.
The source creates a deck of `myPlayers.length` card sets and shuffles it
with a random permutation; the model takes the post-shuffle deck as an
argument. One card goes to each seat, one to the dealer, one more to each
seat; then the first turn begins. -/
def BlackjackGame.dealCards (g : BlackjackGame) (shuffledDeck : List Card) :
    BlackjackGame :=
  let g₀ := { g with gameState := GameState.DEALING_CARDS, deck := shuffledDeck }
  let (ps₁, d₁) := dealOneToEach g₀.myPlayers g₀.deck
  let (dealer₁, d₂) := giveDrawn g₀.dealer d₁
  let (ps₂, d₃) := dealOneToEach ps₁ d₂
  let g₁ :=
    { g₀ with
      myPlayers := ps₂
      dealer := dealer₁
      deck := d₃
      gameState := GameState.PLAYER_TURNS }
  g₁.startNextPlayerTurn.fst

/-- BlackjackGame.onPlayerTurnTimeout (lines 186-190): a fired turn timeout
advances the turn. -/
def BlackjackGame.onPlayerTurnTimeout (g : BlackjackGame) : BlackjackGame :=
  g.startNextPlayerTurn.fst

/-- BlackjackGame.thereAreNonBustedPlayersWithoutBlackjack (lines 245-247). -/
def thereAreNonBustedPlayersWithoutBlackjack (players : List Player) : Bool :=
  players.any (fun p => p.myHandState = HandState.Normal)

/-- Entering the dealer's turn (the head of executeDealerTurn, lines
210-211). -/
def BlackjackGame.enterDealerTurn (g : BlackjackGame) : BlackjackGame :=
  { g with gameState := GameState.DEALER_TURN }

/-- One iteration of the dealer's draw loop (executeDealerTurn, lines
213-220): while some seat is still Normal and the dealer is Normal and
below the dealer minimum, the dealer draws one card. -/
def BlackjackGame.dealerDrawStep (g : BlackjackGame) : BlackjackGame :=
  if g.gameState = GameState.DEALER_TURN ∧
      thereAreNonBustedPlayersWithoutBlackjack g.myPlayers = true ∧
      g.dealer.myHandState = HandState.Normal ∧
      g.dealer.myHasReachedDealerMinimum = false then
    let (dealer', deck') := giveDrawn g.dealer g.deck
    { g with dealer := dealer', deck := deck' }
  else g

/-- ChatGameManager's bet multipliers (src/unnamed/part_006, current
version, lines 219-222). -/
def BET_MULTIPLIER_ON_EVEN : ℚ := 1

/-- ChatGameManager.BET_MULTIPLIER_ON_WIN. -/
def BET_MULTIPLIER_ON_WIN : ℚ := 2

/-- ChatGameManager.BET_MULTIPLIER_ON_BLACKJACK (2.5). -/
def BET_MULTIPLIER_ON_BLACKJACK : ℚ := 5 / 2

/-- ChatGameManager.BET_MULTIPLIER_ON_SURRENDER (0.5). -/
def BET_MULTIPLIER_ON_SURRENDER : ℚ := 1 / 2

/-- ChatGameManager.rewardPlayers (part_006, lines 461-466): reward each
player of a bucket with the multiplier; returns the (player, awarded amount)
pairs, each of which is subtracted from the dealer-balance statistic. -/
def rewardPlayersWith (players : List Player) (multiplier : ℚ) :
    List (Player × ℤ) :=
  players.map (fun p => (p, (p.rewardPlayer multiplier).fst))

/-- ChatGameManager.rewardPlayersOnGameConclusion (part_006, lines 450-459):
blackjack seats at 2.5x, higher-than-dealer seats at 2x, equal seats at 1x,
surrendered seats at 0.5x. -/
def rewardPlayersOnGameConclusion (c : GameConclusion) : List (Player × ℤ) :=
  rewardPlayersWith c.playersWithBlackjack BET_MULTIPLIER_ON_BLACKJACK
    ++ rewardPlayersWith c.higherScoreThanDealerPlayers BET_MULTIPLIER_ON_WIN
    ++ rewardPlayersWith c.sameScoreAsDealerPlayers BET_MULTIPLIER_ON_EVEN
    ++ rewardPlayersWith c.surrenderedPlayers BET_MULTIPLIER_ON_SURRENDER

/-- The total amount paid out at a game conclusion. -/
def totalRewardedAt (c : GameConclusion) : ℤ :=
  ((rewardPlayersOnGameConclusion c).map (fun pr => pr.snd)).sum

/-- ChatGameManager.createPlayerFromUser (part_006, lines 436-448): reject
when the user's ledger balance is below the bet or the bet is below 1 (the
additional integrality check `bet % 1 !== 0` always passes for the integer
bets modelled here); otherwise build a seat carrying a reward closure. -/
def createPlayerFromUser (user : User) (bet : ℤ) : String ⊕ Player :=
  if user.score < bet then Sum.inl "You don't have enough points to make that bet!"
  else if bet < 1 then Sum.inl "Your bet must be a whole, positive number!"
  else Sum.inr (mkPlayer user.id user.name bet true)

/-- The per-chat manager state (src/unnamed/part_006, current version):
the running game, if any, and ChatStatistics.myDealerBalance
(src/card/rankValues.ts file, class ChatStatistics). The two `total*` fields
are instrumentation, not source state: they accumulate the bets of
successful joins and the amounts actually rewarded, so that the
dealer-balance invariant can be stated. -/
structure ChatGameManager where
  game : Option BlackjackGame
  dealerBalance : ℤ
  totalJoinedBets : ℤ
  totalRewarded : ℤ
deriving DecidableEq, Repr

/-- A fresh manager: no game, statistics at 0. -/
def initialManager : ChatGameManager :=
  { game := none, dealerBalance := 0, totalJoinedBets := 0, totalRewarded := 0 }

/-- ChatGameManager.startNewGame (part_006, lines 252-274): fails when a
game is running or the seat cannot be created; otherwise create a game, join
the starting player, initialize the join window, confiscate the bet and add
it to the dealer balance. -/
def managerStartNewGame (m : ChatGameManager) (user : User) (bet : ℤ) :
    ChatGameManager × Option String :=
  if m.game.isSome then (m, some "There's already a game ongoing!")
  else
    match createPlayerFromUser user bet with
    | Sum.inl err => (m, some err)
    | Sum.inr player =>
      -- createGame (lines 424-434): fresh game, join the starting player
      match (newBlackjackGame.joinGame player).snd with
      | some err => (m, some err)
      | none =>
        match ((newBlackjackGame.joinGame player).fst.initializeGame).snd with
        | Sum.inr err =>
          ({ m with
            game := some ((newBlackjackGame.joinGame player).fst.initializeGame).fst },
            some err)
        | Sum.inl _ =>
          ({ m with
            game := some ((newBlackjackGame.joinGame player).fst.initializeGame).fst
            dealerBalance := m.dealerBalance + bet
            totalJoinedBets := m.totalJoinedBets + bet }, none)

/-- The running-game branch of ChatGameManager.joinGame: join the created
seat to the game and, on success, confiscate the bet and add it to the
dealer balance. -/
def managerJoinRunning (m : ChatGameManager) (g : BlackjackGame)
    (player : Player) (bet : ℤ) : ChatGameManager × Option String :=
  match (g.joinGame player).snd with
  | some err => ({ m with game := some (g.joinGame player).fst }, some err)
  | none =>
    ({ m with
      game := some (g.joinGame player).fst
      dealerBalance := m.dealerBalance + bet
      totalJoinedBets := m.totalJoinedBets + bet }, none)

/-- ChatGameManager.joinGame (part_006, lines 282-298): a silent no-op when
no game is running; otherwise create the seat, join it to the game, and on
success confiscate the bet and add it to the dealer balance. -/
def managerJoinGame (m : ChatGameManager) (user : User) (bet : ℤ) :
    ChatGameManager × Option String :=
  match m.game with
  | none => (m, none)
  | some g =>
    match createPlayerFromUser user bet with
    | Sum.inl err => (m, some err)
    | Sum.inr player => managerJoinRunning m g player bet

/-- ChatGameManager.onGameEnded (part_006, lines 418-422) together with the
tail of executeDealerTurn: compute the conclusion, subtract every awarded
amount from the dealer balance (rewardPlayers, lines 461-466), and discard
the game. -/
def managerEndRound (m : ChatGameManager) : ChatGameManager :=
  match m.game with
  | none => m
  | some g =>
    let conclusion := getGameConclusion g.dealer g.myPlayers
    let total := totalRewardedAt conclusion
    { m with
      game := none
      dealerBalance := m.dealerBalance - total
      totalRewarded := m.totalRewarded + total }

/-- Lift a pure game-state step to the manager. -/
def managerOnGame (m : ChatGameManager) (f : BlackjackGame → BlackjackGame) :
    ChatGameManager :=
  match m.game with
  | none => m
  | some g => { m with game := some (f g) }

/-- The externally driven events of one chat's manager: user commands, the
join-window expiry (carrying the shuffled shoe), turn timeouts, the dealer's
automated draws, and the end of the round. -/
inductive MgrOp where
  | start (user : User) (bet : ℤ)
  | join (user : User) (bet : ℤ)
  | deal (shuffledDeck : List Card)
  | standOp (identifier : ℤ)
  | hitOp (identifier : ℤ)
  | surrenderOp (identifier : ℤ)
  | doubleDownOp (user : User)
  | turnTimeout
  | enterDealer
  | dealerDraw
  | endRound

/-- Apply one manager event. -/
def managerStep (m : ChatGameManager) : MgrOp → ChatGameManager
  | .start user bet => (managerStartNewGame m user bet).fst
  | .join user bet => (managerJoinGame m user bet).fst
  | .deal deck => managerOnGame m (fun g => g.dealCards deck)
  | .standOp identifier => managerOnGame m (fun g => (g.stand identifier).fst)
  | .hitOp identifier => managerOnGame m (fun g => (g.hit identifier).fst)
  | .surrenderOp identifier => managerOnGame m (fun g => (g.surrender identifier).fst)
  | .doubleDownOp user => managerOnGame m (fun g => (g.doubleDown user).fst)
  | .turnTimeout => managerOnGame m BlackjackGame.onPlayerTurnTimeout
  | .enterDealer => managerOnGame m BlackjackGame.enterDealerTurn
  | .dealerDraw => managerOnGame m BlackjackGame.dealerDrawStep
  | .endRound => managerEndRound m

/-- Run a sequence of manager events from a state. -/
def runManager (m : ChatGameManager) (ops : List MgrOp) : ChatGameManager :=
  ops.foldl managerStep m

/-! ### The hand evaluator meets its specification (claim C1) -/

/-- Specification side of C1: `n` is obtainable by choosing exactly one
value per card from the rank-value table and summing the choices. -/
def isChoiceSum (cards : List Card) (n : ℕ) : Prop :=
  ∃ vs : List ℕ,
    List.Forall₂ (fun c v => v ∈ RANK_VALUES c.rank) cards vs ∧ vs.sum = n

theorem isChoiceSum_nil (n : ℕ) : isChoiceSum [] n ↔ n = 0 := by
  simp [isChoiceSum, eq_comm]

theorem isChoiceSum_cons (c : Card) (cards : List Card) (n : ℕ) :
    isChoiceSum (c :: cards) n ↔
      ∃ v ∈ RANK_VALUES c.rank, ∃ m, isChoiceSum cards m ∧ n = v + m := by
  constructor
  · rintro ⟨vs, hall, hsum⟩
    rcases List.forall₂_cons_left_iff.mp hall with ⟨v, vs', hv, hall', rfl⟩
    exact ⟨v, hv, vs'.sum, ⟨vs', hall', rfl⟩, by simp [← hsum]⟩
  · rintro ⟨v, hv, m, ⟨vs, hall, rfl⟩, rfl⟩
    exact ⟨v :: vs, List.forall₂_cons.mpr ⟨hv, hall⟩, by simp⟩

theorem mem_foldl_addCardValues (sums : List ℕ) (values : List ℕ)
    (acc : List ℕ) (n : ℕ) :
    n ∈ values.foldl (fun newSums v => newSums ++ sums.map (fun s => s + v)) acc ↔
      n ∈ acc ∨ ∃ v ∈ values, ∃ s ∈ sums, n = s + v := by
  induction values generalizing acc with
  | nil => simp
  | cons v rest ih =>
    rw [List.foldl_cons, ih]
    simp only [List.mem_append, List.mem_map, List.mem_cons]
    constructor
    · rintro (⟨h | ⟨s, hs, rfl⟩⟩ | ⟨w, hw, s, hs, rfl⟩)
      · exact Or.inl h
      · exact Or.inr ⟨v, Or.inl rfl, s, hs, rfl⟩
      · exact Or.inr ⟨w, Or.inr hw, s, hs, rfl⟩
    · rintro (h | ⟨w, hw | hw, s, hs, rfl⟩)
      · exact Or.inl (Or.inl h)
      · exact Or.inl (Or.inr ⟨s, hs, by rw [hw]⟩)
      · exact Or.inr ⟨w, hw, s, hs, rfl⟩

theorem mem_addCardValues (sums : List ℕ) (values : List ℕ) (n : ℕ) :
    n ∈ addCardValues sums values ↔ ∃ v ∈ values, ∃ s ∈ sums, n = s + v := by
  rw [addCardValues, mem_foldl_addCardValues]
  simp

theorem mem_foldl_handSums (cards : List Card) (init : List ℕ) (n : ℕ) :
    n ∈ cards.foldl (fun sums card => addCardValues sums (RANK_VALUES card.rank)) init ↔
      ∃ s ∈ init, ∃ m, isChoiceSum cards m ∧ n = s + m := by
  induction cards generalizing init with
  | nil =>
    simp only [List.foldl_nil]
    constructor
    · intro h
      exact ⟨n, h, 0, (isChoiceSum_nil 0).mpr rfl, rfl⟩
    · rintro ⟨s, hs, m, hm, rfl⟩
      rw [(isChoiceSum_nil m).mp hm]
      simpa using hs
  | cons c rest ih =>
    rw [List.foldl_cons, ih]
    constructor
    · rintro ⟨s, hs, m, hm, rfl⟩
      rcases (mem_addCardValues _ _ _).mp hs with ⟨v, hv, s₀, hs₀, rfl⟩
      refine ⟨s₀, hs₀, v + m, (isChoiceSum_cons c rest _).mpr ⟨v, hv, m, hm, rfl⟩, ?_⟩
      omega
    · rintro ⟨s, hs, m, hm, rfl⟩
      rcases (isChoiceSum_cons c rest m).mp hm with ⟨v, hv, m₀, hm₀, rfl⟩
      refine ⟨s + v, (mem_addCardValues _ _ _).mpr ⟨v, hv, s, hs, rfl⟩, m₀, hm₀, ?_⟩
      omega

theorem mem_possibleHandSums (cards : List Card) (n : ℕ) :
    n ∈ possibleHandSums cards ↔ isChoiceSum cards n := by
  rw [possibleHandSums, mem_foldl_handSums]
  constructor
  · rintro ⟨s, hs, m, hm, rfl⟩
    simp only [List.mem_singleton] at hs
    subst hs
    simpa using hm
  · intro h
    exact ⟨0, by simp, n, h, by simp⟩

theorem mem_removeDuplicatesGo (seen l : List ℕ) (x : ℕ) :
    x ∈ removeDuplicatesGo seen l ↔ x ∈ l ∧ x ∉ seen := by
  induction l generalizing seen with
  | nil => simp [removeDuplicatesGo]
  | cons n rest ih =>
    rw [removeDuplicatesGo]
    by_cases hn : n ∈ seen
    · rw [if_pos hn, ih]
      simp only [List.mem_cons]
      constructor
      · rintro ⟨hx, hs⟩
        exact ⟨Or.inr hx, hs⟩
      · rintro ⟨hx | hx, hs⟩
        · subst hx
          exact absurd hn hs
        · exact ⟨hx, hs⟩
    · rw [if_neg hn]
      simp only [List.mem_cons, ih, List.mem_cons]
      constructor
      · rintro (rfl | ⟨hx, hs⟩)
        · exact ⟨Or.inl rfl, hn⟩
        · exact ⟨Or.inr hx, fun hxs => hs (Or.inr hxs)⟩
      · rintro ⟨rfl | hx, hs⟩
        · exact Or.inl rfl
        · by_cases hxn : x = n
          · exact Or.inl hxn
          · exact Or.inr ⟨hx, fun hxs => by
              rcases hxs with h | h
              · exact hxn h
              · exact hs h⟩

theorem nodup_removeDuplicatesGo (seen l : List ℕ) :
    (removeDuplicatesGo seen l).Nodup := by
  induction l generalizing seen with
  | nil => simp [removeDuplicatesGo]
  | cons n rest ih =>
    rw [removeDuplicatesGo]
    by_cases hn : n ∈ seen
    · rw [if_pos hn]
      exact ih seen
    · rw [if_neg hn]
      refine List.nodup_cons.mpr ⟨?_, ih (n :: seen)⟩
      intro hmem
      exact ((mem_removeDuplicatesGo _ _ _).mp hmem).2 (List.mem_cons_self n seen)

theorem removeDuplicatesGo_congr (l seen₁ seen₂ : List ℕ)
    (h : ∀ y, y ∈ seen₁ ↔ y ∈ seen₂) :
    removeDuplicatesGo seen₁ l = removeDuplicatesGo seen₂ l := by
  induction l generalizing seen₁ seen₂ with
  | nil => rfl
  | cons n rest ih =>
    rw [removeDuplicatesGo, removeDuplicatesGo]
    by_cases hn : n ∈ seen₁
    · rw [if_pos hn, if_pos ((h n).mp hn)]
      exact ih seen₁ seen₂ h
    · rw [if_neg hn, if_neg (fun hc => hn ((h n).mpr hc))]
      refine congrArg (n :: ·) (ih (n :: seen₁) (n :: seen₂) ?_)
      intro y
      simp only [List.mem_cons]
      exact or_congr Iff.rfl (h y)

theorem removeDuplicatesGo_cons_seen (l : List ℕ) (a : ℕ) (seen : List ℕ) :
    removeDuplicatesGo (a :: seen) l
      = removeDuplicatesGo seen (l.filter (fun m => m ≠ a)) := by
  induction l generalizing seen with
  | nil => rfl
  | cons x rest ih =>
    by_cases hxa : x = a
    · subst hxa
      rw [removeDuplicatesGo, if_pos (List.mem_cons_self x seen),
        List.filter_cons_of_neg (by simp)]
      exact ih seen
    · rw [removeDuplicatesGo, List.filter_cons_of_pos (by simpa using hxa),
        removeDuplicatesGo]
      by_cases hx : x ∈ seen
      · rw [if_pos (List.mem_cons_of_mem a hx), if_pos hx]
        exact ih seen
      · rw [if_neg (by simp [hxa, hx]), if_neg hx]
        refine congrArg (x :: ·) ?_
        rw [removeDuplicatesGo_congr rest (x :: a :: seen) (a :: x :: seen)
          (by intro y; simp only [List.mem_cons]; tauto)]
        exact ih (x :: seen)

/-- The embedding's `removeDuplicates` satisfies exactly the keep-first-
occurrence recursion of the source's
`filter((elem, index, self) => index === self.indexOf(elem))`: the head is
its own first occurrence and is kept, every later copy of it is dropped,
and the remaining values are deduplicated among themselves. -/
theorem removeDuplicates_cons (n : ℕ) (rest : List ℕ) :
    removeDuplicates (n :: rest)
      = n :: removeDuplicates (rest.filter (fun m => m ≠ n)) := by
  rw [removeDuplicates, removeDuplicatesGo, if_neg (List.not_mem_nil n),
    removeDuplicatesGo_cons_seen, removeDuplicates]

theorem mem_removeDuplicates (l : List ℕ) (x : ℕ) :
    x ∈ removeDuplicates l ↔ x ∈ l := by
  rw [removeDuplicates, mem_removeDuplicatesGo]
  simp

theorem nodup_removeDuplicates (l : List ℕ) : (removeDuplicates l).Nodup :=
  nodup_removeDuplicatesGo [] l

instance : IsTotal ℕ (fun a b => b ≤ a) :=
  ⟨fun a b => le_total b a⟩

instance : IsTrans ℕ (fun a b => b ≤ a) :=
  ⟨fun _ _ _ h h' => le_trans h' h⟩

theorem sortHighToLow_perm (l : List ℕ) : List.Perm (sortHighToLow l) l :=
  List.perm_insertionSort _ l

theorem mem_sortHighToLow (l : List ℕ) (x : ℕ) :
    x ∈ sortHighToLow l ↔ x ∈ l :=
  (sortHighToLow_perm l).mem_iff

theorem sorted_sortHighToLow (l : List ℕ) :
    List.Sorted (fun a b => b ≤ a) (sortHighToLow l) :=
  List.sorted_insertionSort _ l

theorem nodup_sortHighToLow (l : List ℕ) (h : l.Nodup) :
    (sortHighToLow l).Nodup :=
  ((sortHighToLow_perm l).nodup_iff).mpr h

/-- The non-busted hand values giveCards stores, as a function of the full
hand. -/
def nonBustedOf (cards : List Card) : List ℕ :=
  sortHighToLow ((calculatePossibleHandValues cards).filter
    (fun v => v ≤ MAX_HAND_VALUE))

theorem giveCards_myNonBustedHandValues (p : Player) (cs : List Card) :
    (p.giveCards cs).myNonBustedHandValues = nonBustedOf (p.mycards ++ cs) := rfl

theorem giveCards_mycards (p : Player) (cs : List Card) :
    (p.giveCards cs).mycards = p.mycards ++ cs := rfl

theorem mem_nonBustedOf (cards : List Card) (n : ℕ) :
    n ∈ nonBustedOf cards ↔ isChoiceSum cards n ∧ n ≤ MAX_HAND_VALUE := by
  rw [nonBustedOf, mem_sortHighToLow, List.mem_filter, calculatePossibleHandValues,
    mem_removeDuplicates, mem_possibleHandSums]
  simp

theorem nodup_nonBustedOf (cards : List Card) : (nonBustedOf cards).Nodup :=
  nodup_sortHighToLow _ ((nodup_removeDuplicates _).filter _)

theorem sorted_nonBustedOf (cards : List Card) :
    List.Sorted (fun a b => b ≤ a) (nonBustedOf cards) :=
  sorted_sortHighToLow _

theorem giveCards_myHandState (p : Player) (cs : List Card) :
    (p.giveCards cs).myHandState =
      recalculateHasBlackjack
        (recalculateIsBusted p.myHandState
          (calculatePossibleHandValues (p.mycards ++ cs)))
        (p.mycards ++ cs) (nonBustedOf (p.mycards ++ cs)) := rfl

theorem giveCards_bet (p : Player) (cs : List Card) :
    (p.giveCards cs).bet = p.bet := rfl

/-- The hand of two Aces and a Nine used by the specification's example. -/
def twoAcesAndNine : List Card :=
  [⟨Suit.Spades, Rank.Ace⟩, ⟨Suit.Hearts, Rank.Ace⟩, ⟨Suit.Clubs, Rank.Nine⟩]

/-- C1: for every sequence of cards a player is given, the stored
non-busted hand values are exactly the duplicate-free, descending-sorted
list of the sums obtainable by choosing one rank value per card that are at
most 21 (membership, no duplicates and descending order pin the list down
uniquely); on two Aces and a Nine the list is [21, 11] and the highest
non-busted value is 21. -/
theorem c1_nonBustedHandValues_spec :
    (∀ (p : Player) (cs : List Card) (n : ℕ),
      n ∈ (p.giveCards cs).myNonBustedHandValues ↔
        isChoiceSum (p.mycards ++ cs) n ∧ n ≤ 21) ∧
    (∀ (p : Player) (cs : List Card),
      (p.giveCards cs).myNonBustedHandValues.Nodup ∧
        List.Sorted (fun a b => b ≤ a) (p.giveCards cs).myNonBustedHandValues) ∧
    ((mkPlayer 1 "a" 10 true).giveCards twoAcesAndNine).myNonBustedHandValues
      = [21, 11] ∧
    ((mkPlayer 1 "a" 10 true).giveCards twoAcesAndNine).highestNonBustedHandValue
      = 21 := by
  refine ⟨?_, ?_, by decide, by decide⟩
  · intro p cs n
    rw [giveCards_myNonBustedHandValues, mem_nonBustedOf, MAX_HAND_VALUE]
  · intro p cs
    rw [giveCards_myNonBustedHandValues]
    exact ⟨nodup_nonBustedOf _, sorted_nonBustedOf _⟩

/-! ### Blackjack detection (claim C5) -/

theorem recalculateIsBusted_ne_blackjack (current : HandState)
    (handValues : List ℕ) (h : current ≠ HandState.Blackjack) :
    recalculateIsBusted current handValues ≠ HandState.Blackjack := by
  rw [recalculateIsBusted]
  split
  · exact fun hc => HandState.noConfusion hc
  · exact h

theorem recalculateHasBlackjack_of_ne_two (current : HandState)
    (cards : List Card) (nonBusted : List ℕ) (h : cards.length ≠ 2) :
    recalculateHasBlackjack current cards nonBusted = current := by
  match cards with
  | [] => rfl
  | [_] => rfl
  | [_, _] => exact absurd rfl h
  | _ :: _ :: _ :: _ => rfl

theorem giveCards_highest (p : Player) (cs : List Card) :
    (p.giveCards cs).highestNonBustedHandValue =
      headOrNegOne (nonBustedOf (p.mycards ++ cs)) := rfl

/-- C5: starting from a hand state of Normal, giving cards yields the
Blackjack state exactly when the resulting hand has precisely 2 cards, its
best non-busted value is 21 and one of the cards is an Ace; concretely,
Ace + King is Blackjack while 7 + 7 + 7 (a three-card 21) is not. -/
theorem c5_blackjack_iff (p : Player) (cs : List Card)
    (h : p.myHandState = HandState.Normal) :
    ((p.giveCards cs).myHandState = HandState.Blackjack ↔
      ((p.giveCards cs).mycards.length = 2 ∧
        (p.giveCards cs).highestNonBustedHandValue = 21 ∧
        ∃ c ∈ (p.giveCards cs).mycards, c.rank = Rank.Ace)) ∧
    ((mkPlayer 1 "a" 10 true).giveCards
        [⟨Suit.Spades, Rank.Ace⟩, ⟨Suit.Hearts, Rank.King⟩]).myHandState
      = HandState.Blackjack ∧
    ((mkPlayer 1 "a" 10 true).giveCards
        [⟨Suit.Spades, Rank.Seven⟩, ⟨Suit.Hearts, Rank.Seven⟩,
         ⟨Suit.Clubs, Rank.Seven⟩]).myHandState
      ≠ HandState.Blackjack := by
  refine ⟨?_, by decide, by decide⟩
  rw [giveCards_myHandState, giveCards_mycards, giveCards_highest]
  have hnb : recalculateIsBusted p.myHandState
      (calculatePossibleHandValues (p.mycards ++ cs)) ≠ HandState.Blackjack := by
    apply recalculateIsBusted_ne_blackjack
    rw [h]
    exact fun hc => HandState.noConfusion hc
  generalize p.mycards ++ cs = hand at hnb ⊢
  have hcast : ((MAX_HAND_VALUE : ℕ) : ℤ) = 21 := rfl
  rcases hand with _ | ⟨c0, _ | ⟨c1, _ | ⟨c2, rest⟩⟩⟩
  · simpa [recalculateHasBlackjack] using hnb
  · simpa [recalculateHasBlackjack] using hnb
  · rw [recalculateHasBlackjack]
    by_cases hcond : headOrNegOne (nonBustedOf [c0, c1]) = (MAX_HAND_VALUE : ℤ) ∧
        (c0.rank = Rank.Ace ∨ c1.rank = Rank.Ace)
    · rw [if_pos hcond]
      constructor
      · intro _
        refine ⟨rfl, by rw [← hcast]; exact hcond.1, ?_⟩
        rcases hcond.2 with hc | hc
        · exact ⟨c0, List.mem_cons_self _ _, hc⟩
        · exact ⟨c1, by simp, hc⟩
      · intro _
        rfl
    · rw [if_neg hcond]
      constructor
      · intro hbj
        exact absurd hbj hnb
      · rintro ⟨-, h21, c, hcmem, hace⟩
        exfalso
        apply hcond
        refine ⟨by rw [hcast]; exact h21, ?_⟩
        simp only [List.mem_cons, List.mem_singleton, List.not_mem_nil,
          or_false] at hcmem
        rcases hcmem with rfl | rfl
        · exact Or.inl hace
        · exact Or.inr hace
  · rw [recalculateHasBlackjack_of_ne_two _ _ _ (by simp)]
    constructor
    · intro hbj
      exact absurd hbj hnb
    · rintro ⟨hlen, -, -⟩
      simp at hlen

/-- Witness for C5 at a concrete input: a fresh player (state Normal) dealt
Ace + King has Blackjack. -/
theorem c5_blackjack_iff_witness :
    ((mkPlayer 3 "w" 4 true).giveCards
        [⟨Suit.Clubs, Rank.Ace⟩, ⟨Suit.Diamonds, Rank.King⟩]).myHandState
      = HandState.Blackjack := by
  have h := c5_blackjack_iff (mkPlayer 3 "w" 4 true)
    [⟨Suit.Clubs, Rank.Ace⟩, ⟨Suit.Diamonds, Rank.King⟩] rfl
  exact h.1.mpr ⟨by decide, by decide, ⟨Suit.Clubs, Rank.Ace⟩, by decide, rfl⟩

/-! ### Payout flooring (claim C6) -/

theorem rewardPlayer_of_hasFn (p : Player) (m : ℚ) (hid : p.identifier ≠ -1)
    (hfn : p.hasUpdateScoreFunction = true) :
    p.rewardPlayer m =
      (⌊(p.bet : ℚ) * m⌋,
        [⟨⌊(p.bet : ℚ) * m⌋,
          if p.myHandState = HandState.Surrendered then "surrendered.reward"
          else "winner.reward"⟩]) := by
  rw [Player.rewardPlayer, if_pos]
  exact ⟨by simp [Player.isDealer, hid], hfn⟩

/-- C6: for a non-dealer player holding a reward closure, rewardPlayer
credits the ledger with and returns the floor of bet times multiplier
(never more than the exact product); for the dealer it credits nothing and
returns 0; a bet of 3 at the 2.5x blackjack multiplier pays 7, not 8. -/
theorem c6_rewardPlayer_floor :
    (∀ (p : Player) (m : ℚ), p.identifier ≠ -1 → p.hasUpdateScoreFunction = true →
      (p.rewardPlayer m).fst = ⌊(p.bet : ℚ) * m⌋ ∧
      (p.rewardPlayer m).snd =
        [⟨⌊(p.bet : ℚ) * m⌋,
          if p.myHandState = HandState.Surrendered then "surrendered.reward"
          else "winner.reward"⟩] ∧
      ((⌊(p.bet : ℚ) * m⌋ : ℚ) ≤ (p.bet : ℚ) * m)) ∧
    (∀ (p : Player) (m : ℚ), p.identifier = -1 → p.rewardPlayer m = (0, [])) ∧
    ((mkPlayer 1 "a" 3 true).rewardPlayer BET_MULTIPLIER_ON_BLACKJACK).fst = 7 := by
  refine ⟨fun p m hid hfn => ?_, fun p m hid => ?_, ?_⟩
  · rw [rewardPlayer_of_hasFn p m hid hfn]
    exact ⟨rfl, rfl, Int.floor_le _⟩
  · rw [Player.rewardPlayer, if_neg]
    rintro ⟨hdealer, -⟩
    rw [Player.isDealer] at hdealer
    simp [hid] at hdealer
  · rw [rewardPlayer_of_hasFn (mkPlayer 1 "a" 3 true) BET_MULTIPLIER_ON_BLACKJACK
      (by decide) rfl]
    show (⌊((3 : ℤ) : ℚ) * BET_MULTIPLIER_ON_BLACKJACK⌋ : ℤ) = 7
    rw [show ((3 : ℤ) : ℚ) * BET_MULTIPLIER_ON_BLACKJACK
        = ((15 : ℤ) : ℚ) / ((2 : ℕ) : ℚ) by norm_num [BET_MULTIPLIER_ON_BLACKJACK],
      Rat.floor_intCast_div_natCast]
    decide

/-- Witness for C6 at a concrete input: a non-dealer seat with bet 5 at the
2x win multiplier is paid exactly 10. -/
theorem c6_rewardPlayer_floor_witness :
    ((mkPlayer 2 "b" 5 true).rewardPlayer BET_MULTIPLIER_ON_WIN).fst = 10 := by
  have h := (c6_rewardPlayer_floor.1 (mkPlayer 2 "b" 5 true)
    BET_MULTIPLIER_ON_WIN (by decide) rfl).1
  rw [h, show (mkPlayer 2 "b" 5 true).bet = 5 from rfl]
  norm_num [BET_MULTIPLIER_ON_WIN]

/-! ### Rejected actions leave the game unchanged (claim C7) -/

/-- C7: stand, hit, surrender and doubleDown, called while the game is not
in PLAYER_TURNS or with an identity that does not match the current seat,
return a null result and leave the whole game state (players, dealer, turn
index, deck, game state) unchanged. -/
theorem c7_rejected_actions_no_state_change (g : BlackjackGame) (identifier : ℤ)
    (user : User)
    (h : g.gameState ≠ GameState.PLAYER_TURNS ∨
      g.currentPlayer.identifier ≠ identifier)
    (huser : g.gameState ≠ GameState.PLAYER_TURNS ∨
      g.currentPlayer.identifier ≠ user.id) :
    g.stand identifier = (g, none) ∧
    g.hit identifier = (g, none) ∧
    g.surrender identifier = (g, none) ∧
    g.doubleDown user = (g, none) := by
  refine ⟨?_, ?_, ?_, ?_⟩
  · rw [BlackjackGame.stand]
    rcases h with h | h
    · rw [if_pos h]
    · by_cases hst : g.gameState ≠ GameState.PLAYER_TURNS
      · rw [if_pos hst]
      · rw [if_neg hst, if_pos h]
  · rw [BlackjackGame.hit]
    rcases h with h | h
    · rw [if_pos h]
    · by_cases hst : g.gameState ≠ GameState.PLAYER_TURNS
      · rw [if_pos hst]
      · rw [if_neg hst, if_pos h]
  · rw [BlackjackGame.surrender]
    rcases h with h | h
    · rw [if_pos h]
    · by_cases hst : g.gameState ≠ GameState.PLAYER_TURNS
      · rw [if_pos hst]
      · rw [if_neg hst, if_pos h]
  · rw [BlackjackGame.doubleDown]
    rcases huser with h' | h'
    · rw [if_pos h']
    · by_cases hst : g.gameState ≠ GameState.PLAYER_TURNS
      · rw [if_pos hst]
      · rw [if_neg hst, if_pos h']

/-- Witness for C7 at a concrete input: a freshly created game (state
INITIALIZING, not PLAYER_TURNS) rejects all four actions unchanged. -/
theorem c7_rejected_actions_no_state_change_witness :
    newBlackjackGame.stand 1 = (newBlackjackGame, none) ∧
    newBlackjackGame.hit 1 = (newBlackjackGame, none) ∧
    newBlackjackGame.surrender 1 = (newBlackjackGame, none) ∧
    newBlackjackGame.doubleDown ⟨1, "u", 100⟩ = (newBlackjackGame, none) :=
  c7_rejected_actions_no_state_change newBlackjackGame 1 ⟨1, "u", 100⟩
    (Or.inl (by decide)) (Or.inl (by decide))

/-! ### The seat limit is not enforced (claim C4) -/

/-- A game in the join window with three seats already joined: the game is
created, three players join, and the join-window timer is started. -/
def gameWithThreeSeats : BlackjackGame :=
  let g1 := (newBlackjackGame.joinGame (mkPlayer 1 "p1" 10 true)).fst
  let g2 := (g1.joinGame (mkPlayer 2 "p2" 10 true)).fst
  let g3 := (g2.joinGame (mkPlayer 3 "p3" 10 true)).fst
  g3.initializeGame.fst

/-- C4 (evaluation at the failing input): with 3 seats already joined and
the game still awaiting players, a fourth joinGame succeeds (returns no
error) and grows the seat list to 4 — the current isJoinable checks only
the game state and never compares against MAX_PLAYERS, although joinGame's
own doc comment still promises an error once the maximum number of players
has been reached. -/
theorem c4_fourth_join_accepted :
    gameWithThreeSeats.myPlayers.length = 3 ∧
    gameWithThreeSeats.gameState = GameState.AWAITING_PLAYERS ∧
    (gameWithThreeSeats.joinGame (mkPlayer 4 "p4" 10 true)).snd = none ∧
    (gameWithThreeSeats.joinGame (mkPlayer 4 "p4" 10 true)).fst.myPlayers.length
      = 4 := by
  refine ⟨rfl, rfl, rfl, rfl⟩

/-! ### The blackjack bucket pays 2.5x unconditionally (claim C2) -/

/-- A dealer holding a natural blackjack (Ace + King). -/
def dealerWithBlackjack : Player :=
  (mkPlayer (-1) "The dealer" 0 false).giveCards
    [⟨Suit.Spades, Rank.Ace⟩, ⟨Suit.Spades, Rank.King⟩]

/-- A seat with bet 2 holding a natural blackjack (Ace + Queen). -/
def seatWithBlackjack : Player :=
  (mkPlayer 7 "alice" 2 true).giveCards
    [⟨Suit.Hearts, Rank.Ace⟩, ⟨Suit.Hearts, Rank.Queen⟩]

/-- C2 does not hold as stated: when the dealer also has blackjack, a
blackjack seat is still placed in the blackjack bucket and paid
floor(bet × 2.5) = 5, not bet × 1 = 2; the complete payout list of the
conclusion is [(seat, 5)], so no bet × 1 payment exists. -/
theorem c2_blackjack_push_counterexample :
    dealerWithBlackjack.myHandState = HandState.Blackjack ∧
    seatWithBlackjack.myHandState = HandState.Blackjack ∧
    seatWithBlackjack.bet = 2 ∧
    rewardPlayersOnGameConclusion
        (getGameConclusion dealerWithBlackjack [seatWithBlackjack])
      = [(seatWithBlackjack, 5)] ∧
    (seatWithBlackjack, seatWithBlackjack.bet * 1) ∉
      rewardPlayersOnGameConclusion
        (getGameConclusion dealerWithBlackjack [seatWithBlackjack]) := by
  have hb : (seatWithBlackjack.rewardPlayer BET_MULTIPLIER_ON_BLACKJACK).fst
      = 5 := by
    rw [rewardPlayer_of_hasFn seatWithBlackjack BET_MULTIPLIER_ON_BLACKJACK
      (by decide) (by decide)]
    show (⌊(((2 : ℤ) : ℚ)) * BET_MULTIPLIER_ON_BLACKJACK⌋ : ℤ) = 5
    rw [show (((2 : ℤ) : ℚ)) * BET_MULTIPLIER_ON_BLACKJACK
        = ((5 : ℤ) : ℚ) / ((1 : ℕ) : ℚ) by norm_num [BET_MULTIPLIER_ON_BLACKJACK],
      Rat.floor_intCast_div_natCast]
    decide
  have hlist : rewardPlayersOnGameConclusion
      (getGameConclusion dealerWithBlackjack [seatWithBlackjack])
      = [(seatWithBlackjack, 5)] := by
    rw [rewardPlayersOnGameConclusion,
      show (getGameConclusion dealerWithBlackjack
        [seatWithBlackjack]).playersWithBlackjack = [seatWithBlackjack] by decide,
      show (getGameConclusion dealerWithBlackjack
        [seatWithBlackjack]).higherScoreThanDealerPlayers = [] by decide,
      show (getGameConclusion dealerWithBlackjack
        [seatWithBlackjack]).sameScoreAsDealerPlayers = [] by decide,
      show (getGameConclusion dealerWithBlackjack
        [seatWithBlackjack]).surrenderedPlayers = [] by decide,
      rewardPlayersWith, rewardPlayersWith, rewardPlayersWith, rewardPlayersWith]
    simp [hb]
  refine ⟨by decide, by decide, by decide, hlist, ?_⟩
  rw [hlist]
  decide

/-- C2 amended: every seat whose hand state is Blackjack is placed in the
blackjack bucket and paid floor(bet × 2.5), regardless of the dealer's hand
(in particular also when the dealer has blackjack). -/
theorem c2_blackjack_bucket_amended (dealer : Player) (players : List Player)
    (p : Player) (hmem : p ∈ players)
    (hbj : p.myHandState = HandState.Blackjack)
    (hid : p.identifier ≠ -1) (hfn : p.hasUpdateScoreFunction = true) :
    p ∈ (getGameConclusion dealer players).playersWithBlackjack ∧
    (p, ⌊(p.bet : ℚ) * BET_MULTIPLIER_ON_BLACKJACK⌋) ∈
      rewardPlayersOnGameConclusion (getGameConclusion dealer players) := by
  have hb : p ∈ getPlayersWithBlackjack players := by
    rw [getPlayersWithBlackjack, List.mem_filter]
    exact ⟨hmem, by simp [hbj]⟩
  refine ⟨hb, ?_⟩
  rw [rewardPlayersOnGameConclusion]
  apply List.mem_append_left
  apply List.mem_append_left
  apply List.mem_append_left
  rw [rewardPlayersWith, List.mem_map]
  exact ⟨p, hb, by rw [rewardPlayer_of_hasFn p _ hid hfn]⟩

/-- Witness for the amended C2 at a concrete input: the blackjack seat is in
the blackjack bucket and paid the floored 2.5x amount although the dealer
has blackjack too. -/
theorem c2_blackjack_bucket_amended_witness :
    seatWithBlackjack ∈
      (getGameConclusion dealerWithBlackjack
        [seatWithBlackjack]).playersWithBlackjack ∧
    (seatWithBlackjack, ⌊(seatWithBlackjack.bet : ℚ) * BET_MULTIPLIER_ON_BLACKJACK⌋) ∈
      rewardPlayersOnGameConclusion
        (getGameConclusion dealerWithBlackjack [seatWithBlackjack]) :=
  c2_blackjack_bucket_amended dealerWithBlackjack [seatWithBlackjack]
    seatWithBlackjack (List.mem_singleton.mpr rfl) (by decide) (by decide)
    (by decide)

/-! ### First-action-only rules: surrender and double down (claims C8, C9) -/

theorem scanForTurn_fst_ge (dealer : Player) (ps : List Player) (j : ℕ) :
    j ≤ (scanForTurn dealer ps j).fst := by
  induction ps generalizing j with
  | nil => exact le_refl j
  | cons p rest ih =>
    rw [scanForTurn]
    split
    · exact le_refl j
    · exact le_trans (Nat.le_succ j) (ih (j + 1))

theorem startNextPlayerTurn_myPlayers (g : BlackjackGame) :
    g.startNextPlayerTurn.fst.myPlayers = g.myPlayers := by
  rw [BlackjackGame.startNextPlayerTurn]
  split
  · rfl
  · rfl

theorem startNextPlayerTurn_dealer (g : BlackjackGame) :
    g.startNextPlayerTurn.fst.dealer = g.dealer := by
  rw [BlackjackGame.startNextPlayerTurn]
  split
  · rfl
  · rfl

theorem startNextPlayerTurn_deck (g : BlackjackGame) :
    g.startNextPlayerTurn.fst.deck = g.deck := by
  rw [BlackjackGame.startNextPlayerTurn]
  split
  · rfl
  · rfl

theorem startNextPlayerTurn_gameState (g : BlackjackGame) :
    g.startNextPlayerTurn.fst.gameState = g.gameState := by
  rw [BlackjackGame.startNextPlayerTurn]
  split
  · rfl
  · rfl

theorem startNextPlayerTurn_index_gt (g : BlackjackGame) :
    g.playerTurnIndex < g.startNextPlayerTurn.fst.playerTurnIndex := by
  rw [BlackjackGame.startNextPlayerTurn]
  split
  · show g.playerTurnIndex < g.playerTurnIndex + 1
    omega
  · rename_i hneg
    show g.playerTurnIndex <
      ((scanForTurn g.dealer (g.myPlayers.drop (g.playerTurnIndex + 1).toNat)
        (g.playerTurnIndex + 1).toNat).fst : ℤ)
    have h1 := scanForTurn_fst_ge g.dealer
      (g.myPlayers.drop (g.playerTurnIndex + 1).toNat)
      (g.playerTurnIndex + 1).toNat
    omega

theorem updateCurrentPlayer_playerTurnIndex (g : BlackjackGame)
    (f : Player → Player) :
    (g.updateCurrentPlayer f).playerTurnIndex = g.playerTurnIndex := by
  rw [BlackjackGame.updateCurrentPlayer]
  split
  · rfl
  · rfl

theorem updateCurrentPlayer_gameState (g : BlackjackGame) (f : Player → Player) :
    (g.updateCurrentPlayer f).gameState = g.gameState := by
  rw [BlackjackGame.updateCurrentPlayer]
  split
  · rfl
  · rfl

theorem updateCurrentPlayer_deck (g : BlackjackGame) (f : Player → Player) :
    (g.updateCurrentPlayer f).deck = g.deck := by
  rw [BlackjackGame.updateCurrentPlayer]
  split
  · rfl
  · rfl

theorem updateCurrentPlayer_myPlayers_of_lt (g : BlackjackGame)
    (f : Player → Player) (hlt : g.playerTurnIndex < (g.myPlayers.length : ℤ)) :
    (g.updateCurrentPlayer f).myPlayers =
      g.myPlayers.set g.playerTurnIndex.toNat (f g.currentPlayer) := by
  rw [BlackjackGame.updateCurrentPlayer, if_neg (not_le.mpr hlt)]

theorem currentPlayer_of_lt (g : BlackjackGame)
    (hlt : g.playerTurnIndex < (g.myPlayers.length : ℤ)) :
    g.currentPlayer = g.myPlayers.getD g.playerTurnIndex.toNat g.dealer := by
  rw [BlackjackGame.currentPlayer, if_neg (not_le.mpr hlt)]

theorem getD_set_of_lt (l : List Player) (n : ℕ) (a d : Player)
    (h : n < l.length) : (l.set n a).getD n d = a := by
  rw [List.getD_eq_getElem?_getD, List.getElem?_set_eq_of_lt a h]
  rfl

/-- C8: with the game in PLAYER_TURNS and the acting identity matching the
current seat, surrender succeeds exactly on the seat's first action: it then
sets the seat's hand state to Surrendered, advances the turn index, and
returns the next player; after the seat has acted, surrender returns the
rejection string and leaves the entire game state unchanged. -/
theorem c8_surrender_first_action_only (g : BlackjackGame) (identifier : ℤ)
    (hstate : g.gameState = GameState.PLAYER_TURNS)
    (h0 : 0 ≤ g.playerTurnIndex)
    (hlt : g.playerTurnIndex < (g.myPlayers.length : ℤ))
    (hid : g.currentPlayer.identifier = identifier) :
    (g.currentPlayer.myIsFirstTurn = true →
      (∃ next, (g.surrender identifier).snd = some (Sum.inl next)) ∧
      ((g.surrender identifier).fst.myPlayers.getD g.playerTurnIndex.toNat
          g.dealer).myHandState = HandState.Surrendered ∧
      g.playerTurnIndex < (g.surrender identifier).fst.playerTurnIndex) ∧
    (g.currentPlayer.myIsFirstTurn = false →
      g.surrender identifier
        = (g, some (Sum.inr "Surrendering is no longer allowed!"))) := by
  constructor
  · intro hft
    rw [BlackjackGame.surrender, if_neg (by simp [hstate]), if_neg (by simp [hid]),
      if_pos hft]
    refine ⟨⟨_, rfl⟩, ?_, ?_⟩
    · rw [startNextPlayerTurn_myPlayers,
        updateCurrentPlayer_myPlayers_of_lt g Player.setSurrendered hlt,
        getD_set_of_lt]
      · rfl
      · omega
    · have h1 := startNextPlayerTurn_index_gt (g.updateCurrentPlayer Player.setSurrendered)
      rw [updateCurrentPlayer_playerTurnIndex] at h1
      exact h1
  · intro hft
    rw [BlackjackGame.surrender, if_neg (by simp [hstate]), if_neg (by simp [hid]),
      if_neg (by simp [hft])]

/-- A game in PLAYER_TURNS with one seat on its first turn, used to witness
the action claims at concrete inputs. -/
def gameOneSeatTurn : BlackjackGame :=
  { dealer := (mkPlayer (-1) "The dealer" 0 false).giveCards
      [⟨Suit.Clubs, Rank.Ten⟩]
    myPlayers := [(mkPlayer 5 "w" 10 true).giveCards
      [⟨Suit.Spades, Rank.Nine⟩, ⟨Suit.Hearts, Rank.Ten⟩]]
    gameState := GameState.PLAYER_TURNS
    playerTurnIndex := 0
    deck := [⟨Suit.Diamonds, Rank.Two⟩, ⟨Suit.Diamonds, Rank.Three⟩]
  }

/-- Witness for C8 at a concrete input: in a running game the first-turn
seat surrenders successfully, its state becomes Surrendered and the turn
advances. -/
theorem c8_surrender_first_action_only_witness :
    (∃ next, (gameOneSeatTurn.surrender 5).snd = some (Sum.inl next)) ∧
    ((gameOneSeatTurn.surrender 5).fst.myPlayers.getD
        gameOneSeatTurn.playerTurnIndex.toNat
        gameOneSeatTurn.dealer).myHandState = HandState.Surrendered ∧
    gameOneSeatTurn.playerTurnIndex <
      (gameOneSeatTurn.surrender 5).fst.playerTurnIndex :=
  (c8_surrender_first_action_only gameOneSeatTurn 5 rfl (by decide) (by decide)
    (by decide)).1 (by decide)

/-- C9: with the game in PLAYER_TURNS and the acting user matching the
current seat, doubleDown is rejected with an error string after the seat's
first action, and rejected when the user's ledger balance is below the
seat's bet, in both cases changing nothing; on the seat's first action with
sufficient balance it doubles the seat's bet, gives the seat exactly the one
drawn card, consumes that card from the deck, and unconditionally advances
the turn index (no condition on the seat's resulting hand state). -/
theorem c9_doubleDown_rules (g : BlackjackGame) (user : User)
    (hstate : g.gameState = GameState.PLAYER_TURNS)
    (h0 : 0 ≤ g.playerTurnIndex)
    (hlt : g.playerTurnIndex < (g.myPlayers.length : ℤ))
    (hid : g.currentPlayer.identifier = user.id) :
    (g.currentPlayer.myIsFirstTurn = false →
      g.doubleDown user
        = (g, some (Sum.inr "Doubling down is no longer allowed!"))) ∧
    (g.currentPlayer.myIsFirstTurn = true → user.score < g.currentPlayer.bet →
      g.doubleDown user
        = (g, some (Sum.inr "You don't have enough points to double down!"))) ∧
    (g.currentPlayer.myIsFirstTurn = true → g.currentPlayer.bet ≤ user.score →
      ∀ card rest, drawCard g.deck = some (card, rest) →
      (∃ res, (g.doubleDown user).snd = some (Sum.inl res)) ∧
      ((g.doubleDown user).fst.myPlayers.getD g.playerTurnIndex.toNat
          g.dealer).bet = 2 * g.currentPlayer.bet ∧
      ((g.doubleDown user).fst.myPlayers.getD g.playerTurnIndex.toNat
          g.dealer).mycards = g.currentPlayer.mycards ++ [card] ∧
      (g.doubleDown user).fst.deck = rest ∧
      g.playerTurnIndex < (g.doubleDown user).fst.playerTurnIndex) := by
  refine ⟨fun hft => ?_, fun hft hscore => ?_, fun hft hscore card rest hdraw => ?_⟩
  · rw [BlackjackGame.doubleDown, if_neg (by simp [hstate]),
      if_neg (by simp [hid]), if_pos hft]
  · rw [BlackjackGame.doubleDown, if_neg (by simp [hstate]),
      if_neg (by simp [hid]), if_neg (by simp [hft]), if_pos hscore]
  · rw [BlackjackGame.doubleDown, if_neg (by simp [hstate]),
      if_neg (by simp [hid]), if_neg (by simp [hft]),
      if_neg (not_lt.mpr hscore), hdraw]
    refine ⟨⟨_, rfl⟩, ?_, ?_, ?_, ?_⟩
    · rw [startNextPlayerTurn_myPlayers]
      show ((g.updateCurrentPlayer
        (fun p => p.doubleDownBet.giveCards [card])).myPlayers.getD
          g.playerTurnIndex.toNat g.dealer).bet = 2 * g.currentPlayer.bet
      rw [updateCurrentPlayer_myPlayers_of_lt g _ hlt, getD_set_of_lt]
      · rfl
      · omega
    · rw [startNextPlayerTurn_myPlayers]
      show ((g.updateCurrentPlayer
        (fun p => p.doubleDownBet.giveCards [card])).myPlayers.getD
          g.playerTurnIndex.toNat g.dealer).mycards
        = g.currentPlayer.mycards ++ [card]
      rw [updateCurrentPlayer_myPlayers_of_lt g _ hlt, getD_set_of_lt]
      · rfl
      · omega
    · rw [startNextPlayerTurn_deck]
    · have h1 := startNextPlayerTurn_index_gt
        { g.updateCurrentPlayer (fun p => p.doubleDownBet.giveCards [card]) with
          deck := rest }
      have h2 : ({ g.updateCurrentPlayer
          (fun p => p.doubleDownBet.giveCards [card]) with
          deck := rest } : BlackjackGame).playerTurnIndex = g.playerTurnIndex := by
        show (g.updateCurrentPlayer
          (fun p => p.doubleDownBet.giveCards [card])).playerTurnIndex
          = g.playerTurnIndex
        rw [updateCurrentPlayer_playerTurnIndex]
      rw [h2] at h1
      exact h1

/-- Witness for C9 at a concrete input: the first-turn seat with sufficient
balance doubles its bet from 10 to 20, receives exactly the drawn card, and
the turn advances. -/
theorem c9_doubleDown_rules_witness :
    (∃ res, (gameOneSeatTurn.doubleDown ⟨5, "w", 100⟩).snd = some (Sum.inl res)) ∧
    ((gameOneSeatTurn.doubleDown ⟨5, "w", 100⟩).fst.myPlayers.getD
        gameOneSeatTurn.playerTurnIndex.toNat gameOneSeatTurn.dealer).bet
      = 2 * gameOneSeatTurn.currentPlayer.bet ∧
    ((gameOneSeatTurn.doubleDown ⟨5, "w", 100⟩).fst.myPlayers.getD
        gameOneSeatTurn.playerTurnIndex.toNat gameOneSeatTurn.dealer).mycards
      = gameOneSeatTurn.currentPlayer.mycards ++ [⟨Suit.Diamonds, Rank.Three⟩] ∧
    (gameOneSeatTurn.doubleDown ⟨5, "w", 100⟩).fst.deck
      = [⟨Suit.Diamonds, Rank.Two⟩] ∧
    gameOneSeatTurn.playerTurnIndex <
      (gameOneSeatTurn.doubleDown ⟨5, "w", 100⟩).fst.playerTurnIndex :=
  (c9_doubleDown_rules gameOneSeatTurn ⟨5, "w", 100⟩ rfl (by decide) (by decide)
    (by decide)).2.2 (by decide) (by decide)
    ⟨Suit.Diamonds, Rank.Three⟩ [⟨Suit.Diamonds, Rank.Two⟩] (by decide)

/-! ### The higher-than-dealer bucket (claim C3) -/

/-- The seat states reachable through the operations the program performs on
players: construction, giveCards, setSurrendered, and the modelled
first-action and bet-doubling updates. -/
inductive ReachedPlayer : Player → Prop where
  | base (identifier : ℤ) (name : String) (bet : ℤ) (hasFn : Bool) :
      ReachedPlayer (mkPlayer identifier name bet hasFn)
  | give (p : Player) (cs : List Card) :
      ReachedPlayer p → ReachedPlayer (p.giveCards cs)
  | surrendered (p : Player) : ReachedPlayer p → ReachedPlayer p.setSurrendered
  | acted (p : Player) : ReachedPlayer p → ReachedPlayer p.markActed
  | doubled (p : Player) : ReachedPlayer p → ReachedPlayer p.doubleDownBet

/-- The hand-field invariant every reachable player satisfies: the stored
non-busted values match the current hand (or nothing has been dealt yet), a
Busted state means every achievable sum exceeds 21, and a Normal state with
a dealt hand has a non-empty non-busted list. -/
def PlayerInv (p : Player) : Prop :=
  (p.myNonBustedHandValues = nonBustedOf p.mycards ∨
    (p.mycards = [] ∧ p.myNonBustedHandValues = [])) ∧
  (p.myHandState = HandState.Busted →
    ∀ n, isChoiceSum p.mycards n → MAX_HAND_VALUE < n) ∧
  (p.myHandState = HandState.Normal →
    p.myNonBustedHandValues ≠ [] ∨ p.mycards = [])

theorem isChoiceSum_append_le (l₁ l₂ : List Card) (n : ℕ)
    (h : isChoiceSum (l₁ ++ l₂) n) : ∃ m, isChoiceSum l₁ m ∧ m ≤ n := by
  obtain ⟨vs, hall, hsum⟩ := h
  refine ⟨(vs.take l₁.length).sum, ⟨vs.take l₁.length, ?_, rfl⟩, ?_⟩
  · have h2 := List.forall₂_take l₁.length hall
    rwa [List.take_left] at h2
  · calc (vs.take l₁.length).sum
        ≤ (vs.take l₁.length).sum + (vs.drop l₁.length).sum :=
          Nat.le_add_right _ _
      _ = vs.sum := by rw [← List.sum_append, List.take_append_drop]
      _ = n := hsum

theorem recalculateHasBlackjack_cases (current : HandState) (cards : List Card)
    (nonBusted : List ℕ) :
    recalculateHasBlackjack current cards nonBusted = HandState.Blackjack ∨
      recalculateHasBlackjack current cards nonBusted = current := by
  rcases cards with _ | ⟨c0, _ | ⟨c1, _ | ⟨c2, rest⟩⟩⟩
  · exact Or.inr rfl
  · exact Or.inr rfl
  · rw [recalculateHasBlackjack]
    split
    · exact Or.inl rfl
    · exact Or.inr rfl
  · exact Or.inr rfl

theorem recalculateIsBusted_cases (current : HandState) (handValues : List ℕ) :
    (recalculateIsBusted current handValues = HandState.Busted ∧
      ∀ v ∈ handValues, ¬ v ≤ MAX_HAND_VALUE) ∨
    (recalculateIsBusted current handValues = current ∧
      ∃ v ∈ handValues, v ≤ MAX_HAND_VALUE) := by
  rw [recalculateIsBusted]
  split
  · rename_i hnone
    rw [Option.isNone_iff_eq_none, List.find?_eq_none] at hnone
    left
    exact ⟨rfl, fun v hv => by simpa using hnone v hv⟩
  · rename_i hsome
    right
    refine ⟨rfl, ?_⟩
    rcases hfind : handValues.find? (fun v => v ≤ MAX_HAND_VALUE) with _ | v
    · rw [hfind] at hsome
      simp at hsome
    · exact ⟨v, List.mem_of_find?_eq_some hfind, by simpa using List.find?_some hfind⟩

theorem mem_calculatePossibleHandValues (cards : List Card) (n : ℕ) :
    n ∈ calculatePossibleHandValues cards ↔ isChoiceSum cards n := by
  rw [calculatePossibleHandValues, mem_removeDuplicates, mem_possibleHandSums]

theorem playerInv_giveCards (p : Player) (cs : List Card) (hp : PlayerInv p) :
    PlayerInv (p.giveCards cs) := by
  refine ⟨Or.inl (giveCards_myNonBustedHandValues p cs), ?_, ?_⟩
  · intro hb n hn
    rw [giveCards_mycards] at hn
    rw [giveCards_myHandState] at hb
    have hcur : recalculateIsBusted p.myHandState
        (calculatePossibleHandValues (p.mycards ++ cs)) = HandState.Busted := by
      rcases recalculateHasBlackjack_cases
        (recalculateIsBusted p.myHandState
          (calculatePossibleHandValues (p.mycards ++ cs)))
        (p.mycards ++ cs) (nonBustedOf (p.mycards ++ cs)) with h1 | h1
      · rw [h1] at hb
        exact absurd hb.symm (fun hc => HandState.noConfusion hc)
      · rw [h1] at hb
        exact hb
    rcases recalculateIsBusted_cases p.myHandState
      (calculatePossibleHandValues (p.mycards ++ cs)) with ⟨-, hall⟩ | ⟨heq, -⟩
    · have hmem := (mem_calculatePossibleHandValues (p.mycards ++ cs) n).mpr hn
      have := hall n hmem
      omega
    · rw [heq] at hcur
      obtain ⟨m, hm, hmle⟩ := isChoiceSum_append_le p.mycards cs n hn
      have := hp.2.1 hcur m hm
      omega
  · intro hnormal
    rw [giveCards_myHandState] at hnormal
    have hcur : recalculateIsBusted p.myHandState
        (calculatePossibleHandValues (p.mycards ++ cs)) = HandState.Normal := by
      rcases recalculateHasBlackjack_cases
        (recalculateIsBusted p.myHandState
          (calculatePossibleHandValues (p.mycards ++ cs)))
        (p.mycards ++ cs) (nonBustedOf (p.mycards ++ cs)) with h1 | h1
      · rw [h1] at hnormal
        exact absurd hnormal (fun hc => HandState.noConfusion hc)
      · rw [h1] at hnormal
        exact hnormal
    rcases recalculateIsBusted_cases p.myHandState
      (calculatePossibleHandValues (p.mycards ++ cs)) with ⟨heq, -⟩ | ⟨-, v, hv, hvle⟩
    · rw [heq] at hcur
      exact absurd hcur (fun hc => HandState.noConfusion hc)
    · left
      rw [giveCards_myNonBustedHandValues]
      intro hnil
      have hvmem : v ∈ nonBustedOf (p.mycards ++ cs) := by
        rw [nonBustedOf, mem_sortHighToLow, List.mem_filter]
        exact ⟨hv, by simpa using hvle⟩
      rw [hnil] at hvmem
      exact List.not_mem_nil v hvmem

theorem playerInv_of_reached (p : Player) (h : ReachedPlayer p) : PlayerInv p := by
  induction h with
  | base identifier name bet hasFn =>
    refine ⟨Or.inr ⟨rfl, rfl⟩, ?_, ?_⟩
    · intro hb
      exact absurd hb (fun hc => HandState.noConfusion hc)
    · intro _
      exact Or.inr rfl
  | give p cs _ ih => exact playerInv_giveCards p cs ih
  | surrendered p _ ih =>
    refine ⟨ih.1, ?_, ?_⟩
    · intro hb
      exact absurd hb (fun hc => HandState.noConfusion hc)
    · intro hn
      exact absurd hn (fun hc => HandState.noConfusion hc)
  | acted p _ ih => exact ih
  | doubled p _ ih => exact ih

theorem reached_busted_highest (p : Player) (h : ReachedPlayer p)
    (hb : p.myHandState = HandState.Busted) :
    p.highestNonBustedHandValue = -1 := by
  have hinv := playerInv_of_reached p h
  have hnil : p.myNonBustedHandValues = [] := by
    rcases hinv.1 with h1 | ⟨-, h1⟩
    · rw [h1, List.eq_nil_iff_forall_not_mem]
      intro n hn
      rw [mem_nonBustedOf] at hn
      have h1 := hinv.2.1 hb n hn.1
      have h2 := hn.2
      rw [MAX_HAND_VALUE] at h1 h2
      omega
    · exact h1
  rw [Player.highestNonBustedHandValue, hnil]
  rfl

theorem reached_normal_highest_nonneg (p : Player) (h : ReachedPlayer p)
    (hn : p.myHandState = HandState.Normal) (hc : p.mycards ≠ []) :
    0 ≤ p.highestNonBustedHandValue := by
  have hinv := playerInv_of_reached p h
  rcases hinv.2.2 hn with h1 | h1
  · rw [Player.highestNonBustedHandValue]
    rcases hl : p.myNonBustedHandValues with _ | ⟨v, rest⟩
    · exact absurd hl h1
    · rw [headOrNegOne]
      exact Int.ofNat_nonneg v
  · exact absurd h1 hc

/-- C3: for reachable dealer and seat states with dealt hands, a seat with
hand state Normal lands in the higher-than-dealer bucket and is paid
floor(bet × 2) exactly when its best non-busted total exceeds the dealer's,
or the dealer is busted (a busted dealer's best total is the sentinel -1,
below any Normal seat's total). -/
theorem c3_higher_bucket_iff (dealer : Player) (players : List Player)
    (p : Player) (hdr : ReachedPlayer dealer) (hpr : ReachedPlayer p)
    (hpc : p.mycards ≠ []) (hmem : p ∈ players)
    (hn : p.myHandState = HandState.Normal)
    (hid : p.identifier ≠ -1) (hfn : p.hasUpdateScoreFunction = true) :
    (p ∈ (getGameConclusion dealer players).higherScoreThanDealerPlayers ∧
      (p, ⌊(p.bet : ℚ) * BET_MULTIPLIER_ON_WIN⌋) ∈
        rewardPlayersOnGameConclusion (getGameConclusion dealer players)) ↔
    (dealer.highestNonBustedHandValue < p.highestNonBustedHandValue ∨
      dealer.myHandState = HandState.Busted) := by
  constructor
  · rintro ⟨hbucket, -⟩
    rw [getGameConclusion] at hbucket
    rw [getPlayersWithHigherScoreThanDealer, List.mem_filter] at hbucket
    have := hbucket.2
    simp only [decide_eq_true_eq] at this
    exact Or.inl this.2
  · intro hcmp
    have hlt : dealer.highestNonBustedHandValue < p.highestNonBustedHandValue := by
      rcases hcmp with h1 | h1
      · exact h1
      · rw [reached_busted_highest dealer hdr h1]
        have := reached_normal_highest_nonneg p hpr hn hpc
        omega
    have hbucket : p ∈ getPlayersWithHigherScoreThanDealer dealer players := by
      rw [getPlayersWithHigherScoreThanDealer, List.mem_filter]
      refine ⟨hmem, ?_⟩
      simp only [decide_eq_true_eq]
      exact ⟨hn, hlt⟩
    refine ⟨hbucket, ?_⟩
    rw [rewardPlayersOnGameConclusion]
    apply List.mem_append_left
    apply List.mem_append_left
    apply List.mem_append_right
    rw [rewardPlayersWith, List.mem_map]
    exact ⟨p, hbucket, by rw [rewardPlayer_of_hasFn p _ hid hfn]⟩

/-- A dealer that drew to 24 and busted. -/
def bustedDealer : Player :=
  (mkPlayer (-1) "The dealer" 0 false).giveCards
    [⟨Suit.Clubs, Rank.Ten⟩, ⟨Suit.Clubs, Rank.Nine⟩, ⟨Suit.Clubs, Rank.Five⟩]

/-- A seat standing at 19 with bet 3. -/
def seatAt19 : Player :=
  (mkPlayer 9 "s" 3 true).giveCards
    [⟨Suit.Hearts, Rank.Ten⟩, ⟨Suit.Hearts, Rank.Nine⟩]

/-- Witness for C3 at a concrete input: the seat standing at 19 while the
dealer busts at 24 lands in the higher bucket with the 2x payout. -/
theorem c3_higher_bucket_iff_witness :
    (seatAt19 ∈
      (getGameConclusion bustedDealer [seatAt19]).higherScoreThanDealerPlayers ∧
      (seatAt19, ⌊(seatAt19.bet : ℚ) * BET_MULTIPLIER_ON_WIN⌋) ∈
        rewardPlayersOnGameConclusion (getGameConclusion bustedDealer [seatAt19])) ∧
    seatAt19.highestNonBustedHandValue = 19 ∧
    bustedDealer.myHandState = HandState.Busted :=
  ⟨(c3_higher_bucket_iff bustedDealer [seatAt19] seatAt19
      (ReachedPlayer.give _ _ (ReachedPlayer.base (-1) "The dealer" 0 false))
      (ReachedPlayer.give _ _ (ReachedPlayer.base 9 "s" 3 true))
      (by decide) (List.mem_singleton.mpr rfl) (by decide) (by decide)
      (by decide)).mpr (Or.inr (by decide)),
    by decide, by decide⟩

/-! ### The dealer-balance statistic (claim C10) -/

theorem managerOnGame_stats (m : ChatGameManager) (f : BlackjackGame → BlackjackGame) :
    (managerOnGame m f).dealerBalance = m.dealerBalance ∧
    (managerOnGame m f).totalJoinedBets = m.totalJoinedBets ∧
    (managerOnGame m f).totalRewarded = m.totalRewarded := by
  rw [managerOnGame]
  cases m.game
  · exact ⟨rfl, rfl, rfl⟩
  · exact ⟨rfl, rfl, rfl⟩

theorem managerStep_invariant (m : ChatGameManager) (op : MgrOp)
    (h : m.dealerBalance = m.totalJoinedBets - m.totalRewarded) :
    (managerStep m op).dealerBalance
      = (managerStep m op).totalJoinedBets - (managerStep m op).totalRewarded := by
  have honGame : ∀ f : BlackjackGame → BlackjackGame,
      (managerOnGame m f).dealerBalance
        = (managerOnGame m f).totalJoinedBets
          - (managerOnGame m f).totalRewarded := by
    intro f
    rcases managerOnGame_stats m f with ⟨h1, h2, h3⟩
    rw [h1, h2, h3]
    exact h
  cases op with
  | start user bet =>
    show (managerStartNewGame m user bet).fst.dealerBalance
      = (managerStartNewGame m user bet).fst.totalJoinedBets
        - (managerStartNewGame m user bet).fst.totalRewarded
    rw [managerStartNewGame]
    by_cases hg : m.game.isSome
    · rw [if_pos hg]
      exact h
    · rw [if_neg hg]
      rcases createPlayerFromUser user bet with err | player
    -- createPlayerFromUser failed: state unchanged
      · exact h
    -- joining a fresh game and initializing it always succeed, so the
    -- whole success path reduces to adding the bet
      · show m.dealerBalance + bet
          = (m.totalJoinedBets + bet) - m.totalRewarded
        omega
  | join user bet =>
    show (managerJoinGame m user bet).fst.dealerBalance
      = (managerJoinGame m user bet).fst.totalJoinedBets
        - (managerJoinGame m user bet).fst.totalRewarded
    rw [managerJoinGame]
    rcases m.game with _ | g
    · exact h
    · rcases createPlayerFromUser user bet with err | player
      · exact h
      · show (managerJoinRunning m g player bet).fst.dealerBalance
          = (managerJoinRunning m g player bet).fst.totalJoinedBets
            - (managerJoinRunning m g player bet).fst.totalRewarded
        rw [managerJoinRunning]
        rcases (g.joinGame player).snd with _ | err
        · show m.dealerBalance + bet
            = (m.totalJoinedBets + bet) - m.totalRewarded
          omega
        · exact h
  | deal deck => exact honGame _
  | standOp identifier => exact honGame _
  | hitOp identifier => exact honGame _
  | surrenderOp identifier => exact honGame _
  | doubleDownOp user => exact honGame _
  | turnTimeout => exact honGame _
  | enterDealer => exact honGame _
  | dealerDraw => exact honGame _
  | endRound =>
    show (managerEndRound m).dealerBalance
      = (managerEndRound m).totalJoinedBets - (managerEndRound m).totalRewarded
    rw [managerEndRound]
    rcases m.game with _ | g
    · exact h
    · show m.dealerBalance - totalRewardedAt (getGameConclusion g.dealer g.myPlayers)
        = m.totalJoinedBets
          - (m.totalRewarded + totalRewardedAt (getGameConclusion g.dealer g.myPlayers))
      omega

theorem runManager_cons (m : ChatGameManager) (op : MgrOp) (rest : List MgrOp) :
    runManager m (op :: rest) = runManager (managerStep m op) rest := rfl

/-- C10: along every sequence of manager events starting from a fresh chat,
the dealer-balance statistic equals the sum of the bets of all successful
startNewGame/joinGame calls minus the sum of all amounts actually rewarded
at round conclusions; no other event (dealing, stands, hits, surrenders,
double downs, timeouts, dealer draws) moves the statistic. -/
theorem c10_dealer_balance_invariant (ops : List MgrOp) :
    (runManager initialManager ops).dealerBalance
      = (runManager initialManager ops).totalJoinedBets
        - (runManager initialManager ops).totalRewarded := by
  have haux : ∀ (l : List MgrOp) (m : ChatGameManager),
      m.dealerBalance = m.totalJoinedBets - m.totalRewarded →
      (runManager m l).dealerBalance
        = (runManager m l).totalJoinedBets - (runManager m l).totalRewarded := by
    intro l
    induction l with
    | nil =>
      intro m h
      exact h
    | cons op rest ih =>
      intro m h
      rw [runManager_cons]
      exact ih (managerStep m op) (managerStep_invariant m op h)
  exact haux ops initialManager rfl

end Blackjack
